import Mathlib

/-!
Shallow embedding of the `code-agent-monitor` VS Code extension's data-access
core (`src/providers/ClaudeDataProvider.ts` and `CodexDataProvider.ts`).

Embedding conventions:
* JavaScript timestamps (`Date.getTime()` values) are embedded as `Int`
  millisecond epoch values; a field of the source that holds a date *string*
  which is only ever consumed through `new Date(x).getTime()` is embedded
  directly as that `Int`.
* `Record<string, T>` objects are embedded as association lists
  `List (String × T)` in `Object.entries` insertion order.
* A JSON field that the code guards with `?.` or `||` fallbacks is embedded
  as an `Option`.
* Fallible reads (missing file, unreadable file, `JSON.parse` failure inside
  `try`/`catch`) are embedded as `Option` inputs: `none` models the file being
  missing or failing to parse, which the source always treats identically
  (skip / empty result).
* JavaScript string helpers used by the source (`split`, `trim`, `includes`,
  `endsWith`, `replace` with a global single-char pattern) are embedded as
  structurally recursive functions over `List Char` so that every definition
  evaluates by kernel reduction.
-/

namespace CAM

/-! ### JavaScript string primitives -/

/-- `String.split(sep)` for a single-character separator, on the character
list.  Splitting never yields an empty list (JS `''.split(c)` is `['']`). -/
def splitOnChar (c : Char) : List Char → List (List Char)
  | [] => [[]]
  | x :: xs =>
    match splitOnChar c xs with
    | [] => [[x]]
    | y :: ys => if x = c then [] :: y :: ys else (x :: y) :: ys

/-- Whether the second list is an initial segment of the first
(helper for `jsIncludes` / `jsEndsWith`). -/
def startsWithChars : List Char → List Char → Bool
  | _, [] => true
  | [], _ :: _ => false
  | a :: as_, b :: bs => a = b && startsWithChars as_ bs

/-- Whether `pat` occurs contiguously inside `s` (helper for `jsIncludes`). -/
def containsChars : List Char → List Char → Bool
  | [], pat => pat.isEmpty
  | s@(_ :: rest), pat => startsWithChars s pat || containsChars rest pat

/-- JS `s.includes(pat)`. -/
def jsIncludes (s pat : String) : Bool :=
  containsChars s.data pat.data

/-- JS `s.endsWith(suffix)`. -/
def jsEndsWith (s suf : String) : Bool :=
  startsWithChars s.data.reverse suf.data.reverse

/-- JS `s.trim()` (whitespace stripped from both ends). -/
def jsTrim (s : String) : String :=
  String.mk (((s.data.dropWhile Char.isWhitespace).reverse.dropWhile
      Char.isWhitespace).reverse)

/-- JS `s.split(c)` returning strings. -/
def jsSplit (s : String) (c : Char) : List String :=
  (splitOnChar c s.data).map String.mk

/-- JS `a || b` for a string `a` that may be `undefined` (`none`) or empty
(the empty string is falsy). -/
def jsOrString (a : Option String) (b : String) : String :=
  match a with
  | some s => if s = "" then b else s
  | none => b

/-- Node `path.basename` (POSIX): the last path component, with trailing
slashes stripped first. -/
def basename (p : String) : String :=
  String.mk (((p.data.reverse.dropWhile (fun c => c = '/')).takeWhile
      (fun c => c ≠ '/')).reverse)

/-! ### JS `Array.prototype.sort` with a numeric-key comparator

Both providers sort with comparators of the shape
`(a, b) => key(b) - key(a)`, i.e. a stable sort into non-increasing key
order.  JS `sort` is required to be stable; we embed it as Mathlib's stable
`List.insertionSort` for the relation "key of the left is at least the key of
the right". -/

def sortByKeyDesc (key : α → Int) (l : List α) : List α :=
  List.insertionSort (fun a b => key b ≤ key a) l

/-! ### Claude data model (`src/types.ts`, fields the provider reads) -/

/-- One session record of `sessions-index.json` (`ClaudeSession` in
`types.ts`).  `modified` is the millisecond epoch value of the session's
modification timestamp (the source only uses it via `new Date(...).getTime()`
and `Date` comparison). -/
structure ClaudeSession where
  sessionId : String
  fullPath : String
  fileMtime : Int
  messageCount : Nat
  created : Int
  modified : Int
  gitBranch : Option String
  projectPath : String
deriving DecidableEq, Repr

/-- `SessionsIndex` of `types.ts`: session records live under `entries`, with
`sessions` as a legacy fallback. -/
structure SessionsIndex where
  version : Nat
  entries : Option (List ClaudeSession)
  sessions : Option (List ClaudeSession)
  originalPath : Option String
deriving DecidableEq, Repr

/-- One directory entry of `~/.claude/projects` as `getProjects` consumes it:
its name, whether it is a directory, and the parsed `sessions-index.json`
(`none` models a missing, unreadable or non-JSON index file, all of which the
source skips identically). -/
structure DirEntry where
  name : String
  isDirectory : Bool
  index : Option SessionsIndex
deriving DecidableEq, Repr

/-- `ProjectInfo` of `types.ts`; `lastModified` as millisecond epoch. -/
structure ProjectInfo where
  name : String
  path : String
  escapedPath : String
  sessions : List ClaudeSession
  totalMessages : Nat
  lastModified : Int
deriving DecidableEq, Repr

/-- `unescapePath` of `ClaudeDataProvider`: every hyphen of `escapedPath` is
replaced by a slash (a `replace` with a global single-character pattern). -/
def unescapePath (escapedPath : String) : String :=
  String.mk (escapedPath.data.map (fun c => if c = '-' then '/' else c))

/-- The session list selected by `getProjects`:
`index.entries || index.sessions || []` (arrays, even empty ones, are truthy
in JS, so a present-but-empty `entries` wins). -/
def indexSessions (index : SessionsIndex) : List ClaudeSession :=
  match index.entries with
  | some l => l
  | none =>
    match index.sessions with
    | some l => l
    | none => []

/-- The `ProjectInfo` that `getProjects` pushes for a directory entry with a
parsed index: path from `originalPath || unescapePath(name)`, sessions sorted
by modification time descending, `totalMessages` from `reduce`, and
`lastModified` as the maximum modification time (seeded with `new Date(0)`). -/
def mkProject (e : DirEntry) (index : SessionsIndex) : ProjectInfo :=
  let projectPath := jsOrString index.originalPath (unescapePath e.name)
  let sessions := indexSessions index
  { name := basename projectPath
    path := projectPath
    escapedPath := e.name
    sessions := sortByKeyDesc (fun s => s.modified) sessions
    totalMessages := sessions.foldl (fun sum s => sum + s.messageCount) 0
    lastModified := sessions.foldl
      (fun lastModified s =>
        if lastModified < s.modified then s.modified else lastModified) 0 }

/-- The per-entry step of `getProjects`: non-directories are skipped, as are
entries whose `sessions-index.json` is missing or fails to parse (the
`catch { /* Skip invalid projects */ }`). -/
def processDirEntry (e : DirEntry) : Option ProjectInfo :=
  if e.isDirectory then (e.index).map (mkProject e) else none

/-- `ClaudeDataProvider.getProjects`.  The input is the listing of
`~/.claude/projects` (`none` when `fs.existsSync` fails, in which case the
source returns `[]`); the result is the projects sorted by `lastModified`
descending. -/
def getProjects (projectsDir : Option (List DirEntry)) : List ProjectInfo :=
  match projectsDir with
  | none => []
  | some entries =>
    sortByKeyDesc (fun p => p.lastModified) (entries.filterMap processDirEntry)

/-! ### Stats model (`stats-cache.json` as the provider consumes it) -/

/-- Cumulative per-model usage (`TokenUsage` in `types.ts`). -/
structure TokenUsage where
  inputTokens : Nat
  outputTokens : Nat
  cacheReadInputTokens : Nat
  cacheCreationInputTokens : Nat
deriving DecidableEq, Repr

/-- `DailyActivity` of `types.ts`. -/
structure DailyActivity where
  date : String
  messageCount : Nat
  sessionCount : Nat
  toolCallCount : Nat
deriving DecidableEq, Repr

/-- One daily per-model token record.  `types.ts` declares the field as
`modelTokens : Record<string, TokenUsage>`, but `getTodayStats` reads the
untyped JSON through `tokenData?.tokensByModel` with plain numeric values
("Daily tokens only have total per model"); we embed the record exactly as
the code accesses it, with the field optional since the access is guarded. -/
structure DailyModelTokens where
  date : String
  tokensByModel : Option (List (String × Nat))
deriving DecidableEq, Repr

/-- `ClaudeStats` of `types.ts`, restricted to the fields the provider's
aggregation functions read; the fields the code guards (with `!stats.x` or
`?.`) are `Option`s. -/
structure ClaudeStats where
  version : Nat := 0
  lastComputedDate : String := ""
  dailyActivity : Option (List DailyActivity) := none
  dailyModelTokens : Option (List DailyModelTokens) := none
  modelUsage : Option (List (String × TokenUsage)) := none
  totalSessions : Nat := 0
  totalMessages : Nat := 0
deriving DecidableEq, Repr

/-- The snapshot record returned by `getTodayStats`. -/
structure TodaySnapshot where
  messages : Nat
  sessions : Nat
  toolCalls : Nat
  totalTokens : Nat
  date : String
deriving DecidableEq, Repr

/-- Sum of the per-model counts of one daily token record:
`for (const count of Object.values(tokenData.tokensByModel)) totalTokens += count || 0`. -/
def sumTokens (d : DailyModelTokens) : Nat :=
  match d.tokensByModel with
  | none => 0
  | some m => m.foldl (fun acc kv => acc + kv.2) 0

/-- The same sum for a possibly-undefined record (`tokenData?.tokensByModel`). -/
def sumTokensOpt (d : Option DailyModelTokens) : Nat :=
  match d with
  | none => 0
  | some d => sumTokens d

/-- `ClaudeDataProvider.getTodayStats`.  `stats?` is the parsed
`stats-cache.json` (`none` when the file is missing or unreadable) and
`today` the `toISOString`-date of the current day.  If today's date is not
found in `dailyActivity`, the code falls back to the *final element* of
`dailyActivity` and the *final element* of `dailyModelTokens`, and labels the
snapshot with that activity entry's date (`activity?.date || today`). -/
def getTodayStats (stats? : Option ClaudeStats) (today : String) : TodaySnapshot :=
  match stats? with
  | none => ⟨0, 0, 0, 0, today⟩
  | some stats =>
    match stats.dailyActivity with
    | none => ⟨0, 0, 0, 0, today⟩
    | some da =>
      if da.isEmpty then ⟨0, 0, 0, 0, today⟩
      else
        match da.find? (fun d => d.date = today) with
        | some a =>
          { messages := a.messageCount
            sessions := a.sessionCount
            toolCalls := a.toolCallCount
            totalTokens := sumTokensOpt
              (stats.dailyModelTokens.bind (List.find? (fun d => d.date = today)))
            date := today }
        | none =>
          let tokenLast := stats.dailyModelTokens.bind List.getLast?
          match da.getLast? with
          | some a =>
            { messages := a.messageCount
              sessions := a.sessionCount
              toolCalls := a.toolCallCount
              totalTokens := sumTokensOpt tokenLast
              date := if a.date = "" then today else a.date }
          | none =>
            { messages := 0, sessions := 0, toolCalls := 0
              totalTokens := sumTokensOpt tokenLast, date := today }

/-- `getShortModelName`: family substring checks in a fixed order, falling
back to the leading hyphen-delimited segment. -/
def getShortModelName (fullName : String) : String :=
  if jsIncludes fullName "opus" then "Opus"
  else if jsIncludes fullName "sonnet" then "Sonnet"
  else if jsIncludes fullName "haiku" then "Haiku"
  else
    match jsSplit fullName '-' with
    | [] => ""
    | seg :: _ => seg

/-- The value stored per short name by `getModelUsage`. -/
structure ModelUsageEntry where
  input : Nat
  output : Nat
deriving DecidableEq, Repr

/-- JS object assignment `result[k] = v`: an existing key keeps its insertion
position and gets the new value; a new key is appended. -/
def recordSet (l : List (String × ModelUsageEntry)) (k : String)
    (v : ModelUsageEntry) : List (String × ModelUsageEntry) :=
  match l with
  | [] => [(k, v)]
  | (k', v') :: rest =>
    if k' = k then (k, v) :: rest else (k', v') :: recordSet rest k v

/-- `ClaudeDataProvider.getModelUsage`: one `result[shortName] = {...}`
assignment per entry of `stats.modelUsage`, in `Object.entries` order. -/
def getModelUsage (stats? : Option ClaudeStats) :
    List (String × ModelUsageEntry) :=
  match stats? with
  | none => []
  | some stats =>
    match stats.modelUsage with
    | none => []
    | some mu =>
      mu.foldl
        (fun result p =>
          recordSet result (getShortModelName p.1) ⟨p.2.inputTokens, p.2.outputTokens⟩)
        []

/-- `ClaudeDataProvider.formatRelativeTime`.  `diffMs` is
`now.getTime() - date.getTime()`; `Math.floor` of the millisecond ratios is
`Int.fdiv`.  The final branch returns `date.toLocaleDateString()`, an
opaque locale-dependent rendering of the input date, passed in as
`localeDate`. -/
def formatRelativeTime (diffMs : Int) (localeDate : String) : String :=
  let diffMins := Int.fdiv diffMs 60000
  let diffHours := Int.fdiv diffMs 3600000
  let diffDays := Int.fdiv diffMs 86400000
  if diffMins < 1 then "just now"
  else if diffMins < 60 then toString diffMins ++ "m ago"
  else if diffHours < 24 then toString diffHours ++ "h ago"
  else if diffDays < 7 then toString diffDays ++ "d ago"
  else localeDate

/-- JS `xs.slice(-n)` for a nonnegative integral `n`: the last `n` elements —
except that `n = 0` gives `slice(-0) = slice(0)`, the whole array. -/
def jsSliceNeg (l : List α) (n : Nat) : List α :=
  if n = 0 then l else l.drop (l.length - n)

/-- The line list `getRecentHistory` iterates over:
`content.trim().split('\n').filter(Boolean)`. -/
def historyLines (content : String) : List String :=
  (jsSplit (jsTrim content) '\n').filter (fun l => l ≠ "")

/-- `ClaudeDataProvider.getRecentHistory` over the parsed-entry level:
`parse` models `JSON.parse` on one line (`none` = the per-line `catch`,
skipping the line), `content?` the file content (`none` = missing or
unreadable `history.jsonl`).  The last `limit` lines are parsed in order and
the entry list is then reversed. -/
def getRecentHistory (parse : String → Option α) (content? : Option String)
    (limit : Nat) : List α :=
  match content? with
  | none => []
  | some content =>
    ((jsSliceNeg (historyLines content) limit).filterMap parse).reverse

/-! ### Codex provider (`CodexDataProvider.ts`) -/

namespace Codex

/-- The `payload` of a `session_meta` first line.  `timestamp` is embedded as
the millisecond epoch value (the source keeps the raw string and consumes it
through `new Date(...).getTime()` when sorting). -/
structure SessionMeta where
  id : String
  timestamp : Int
  cwd : String
  model_provider : Option String
  cli_version : String
  source : Option String
deriving DecidableEq, Repr

/-- The parsed first line of a session-transcript file:
`JSON.parse(content.split('\n')[0])`. -/
structure FirstEvent where
  type : String
  payload : Option SessionMeta
deriving DecidableEq, Repr

/-- One `.jsonl` candidate file of a day directory.  `firstEvent = none`
models an unreadable file or a first line that `JSON.parse` rejects (the
`catch { /* Skip invalid files */ }`). -/
structure SessionFile where
  name : String
  firstEvent : Option FirstEvent
  size : Nat
deriving DecidableEq, Repr

/-- `CodexSession` of `CodexDataProvider.ts`. -/
structure CodexSession where
  id : String
  timestamp : Int
  cwd : String
  model_provider : String
  cli_version : String
  source : String
  filePath : String
  fileSize : Nat
deriving DecidableEq, Repr

/-- A day directory of the `sessions/year/month/day` tree. -/
structure DayDir where
  name : String
  isDirectory : Bool
  files : List SessionFile
deriving DecidableEq, Repr

/-- A month directory. -/
structure MonthDir where
  name : String
  isDirectory : Bool
  days : List DayDir
deriving DecidableEq, Repr

/-- A year directory. -/
structure YearDir where
  name : String
  isDirectory : Bool
  months : List MonthDir
deriving DecidableEq, Repr

/-- The envelope shape `parseSessionFile` recognizes on the first line:
`firstEvent.type === 'session_meta' && firstEvent.payload` (a truthy
payload). -/
def envelopeOk (f : SessionFile) : Bool :=
  match f.firstEvent with
  | none => false
  | some ev => ev.type = "session_meta" && ev.payload.isSome

/-- `CodexDataProvider.parseSessionFile`: builds a `CodexSession` from the
first line when it matches the recognized envelope shape, and returns `null`
(here `none`) otherwise — also when reading or parsing threw. -/
def parseSessionFile (filePath : String) (f : SessionFile) : Option CodexSession :=
  match f.firstEvent with
  | none => none
  | some ev =>
    if ev.type = "session_meta" then
      match ev.payload with
      | some meta =>
        some { id := meta.id
               timestamp := meta.timestamp
               cwd := meta.cwd
               model_provider := jsOrString meta.model_provider "openai"
               cli_version := meta.cli_version
               source := jsOrString meta.source "cli"
               filePath := filePath
               fileSize := f.size }
      | none => none
    else none

/-- The sessions collected from one day directory: non-directories are
skipped, and only `.jsonl` files whose first line parses are kept. -/
def collectDay (dayPath : String) (day : DayDir) : List CodexSession :=
  if day.isDirectory then
    day.files.filterMap (fun file =>
      if jsEndsWith file.name ".jsonl" then
        parseSessionFile (dayPath ++ "/" ++ file.name) file
      else none)
  else []

/-- The sessions collected from one month directory. -/
def collectMonth (monthPath : String) (month : MonthDir) : List CodexSession :=
  if month.isDirectory then
    (month.days.map (fun day => collectDay (monthPath ++ "/" ++ day.name) day)).flatten
  else []

/-- The sessions collected from one year directory. -/
def collectYear (yearPath : String) (year : YearDir) : List CodexSession :=
  if year.isDirectory then
    (year.months.map (fun m => collectMonth (yearPath ++ "/" ++ m.name) m)).flatten
  else []

/-- `CodexDataProvider.getSessions`: walk the `sessions/year/month/day`
tree (`sessionsDir = none` when `fs.existsSync` fails, returning `[]`),
collect the parseable session files, and sort by timestamp descending. -/
def getSessions (sessionsDir : Option (List YearDir)) (sessionsPath : String) :
    List CodexSession :=
  match sessionsDir with
  | none => []
  | some years =>
    sortByKeyDesc (fun s => s.timestamp)
      ((years.map (fun y => collectYear (sessionsPath ++ "/" ++ y.name) y)).flatten)

end Codex

/-! ### Specification-side definitions

These are written from the specification's wording (never from the code) and
are only compared against the embedded code above. -/

/-- Lexicographic (≤) comparison of character lists; on ISO `YYYY-MM-DD` date
strings this is exactly chronological order. -/
def dateLeChars : List Char → List Char → Bool
  | [], _ => true
  | _ :: _, [] => false
  | a :: as_, b :: bs => if a = b then dateLeChars as_ bs else decide (a < b)

/-- Spec notion for the fallback of the snapshot: the *chronologically last*
entry of the daily-activity list (the entry with the maximal ISO date;
later occurrences win ties). -/
def chronoLast (l : List DailyActivity) : Option DailyActivity :=
  l.foldl
    (fun acc d =>
      match acc with
      | none => some d
      | some m => if dateLeChars m.date.data d.date.data then some d else some m)
    none

/-- Spec notion for the snapshot's token total: the sum of all per-model
token counts recorded in the daily-model-token entries *for the given date*
(zero when no entry for that date exists). -/
def tokensForDate (stats : ClaudeStats) (date : String) : Nat :=
  match stats.dailyModelTokens with
  | none => 0
  | some l => ((l.filter (fun d => d.date = date)).map sumTokens).sum

/-- The token entry the code actually selects for the snapshot: the first
`dailyModelTokens` entry dated `today` when today's activity exists,
otherwise the final element of `dailyModelTokens` — regardless of its date. -/
def selectedTokenEntry (stats : ClaudeStats) (today : String) :
    Option DailyModelTokens :=
  match stats.dailyActivity with
  | none => none
  | some da =>
    if (da.find? (fun d => d.date = today)).isSome then
      stats.dailyModelTokens.bind (List.find? (fun d => d.date = today))
    else
      stats.dailyModelTokens.bind List.getLast?

/-- Spec notion for the model-usage report: the *summed* input/output counts
of all raw identifiers canonicalizing to the given short name. -/
def summedUsageFor (mu : List (String × TokenUsage)) (short : String) :
    ModelUsageEntry :=
  (mu.filter (fun p => getShortModelName p.1 = short)).foldl
    (fun acc p => ⟨acc.input + p.2.inputTokens, acc.output + p.2.outputTokens⟩)
    ⟨0, 0⟩

/-- The raw usage entry kept by last-write-wins: the final entry of `mu`
whose identifier canonicalizes to `short`. -/
def lastUsageFor (mu : List (String × TokenUsage)) (short : String) :
    Option ModelUsageEntry :=
  ((mu.filter (fun p => getShortModelName p.1 = short)).getLast?).map
    (fun p => ⟨p.2.inputTokens, p.2.outputTokens⟩)

/-- Modelled from the spec: the filesystem-safe path-escaping scheme that the
external agent CLI applies to a project's working-directory path to name its
directory under `~/.claude/projects` (the repository contains only the
unescaping direction, `unescapePath`).  Per the spec's wording, the
separator characters of the path are replaced (by hyphens). -/
def escapePath (p : String) : String :=
  String.mk (p.data.map (fun c => if c = '/' then '-' else c))

/-- Spec-side "the last `n` elements of a list", written independently of the
implementation's `slice` arithmetic. -/
def takeLast (n : Nat) (l : List α) : List α :=
  (l.reverse.take n).reverse

/-! ### Concrete inputs used by counterexamples and witnesses -/

/-- Two raw model identifiers that both canonicalize to "Opus"
(the spec's §8 collision scenario). -/
def collidingUsage : List (String × TokenUsage) :=
  [("claude-opus-4-20250101", ⟨100, 10, 0, 0⟩),
   ("claude-opus-4-20250215", ⟨200, 20, 0, 0⟩)]

/-- A stats cache carrying only the colliding model-usage record. -/
def statsColliding : ClaudeStats :=
  { modelUsage := some collidingUsage }

/-- A daily-activity list that is *not* sorted ascending by date: the
chronologically last day (2024-01-05) sits first. -/
def actsUnsorted : List DailyActivity :=
  [⟨"2024-01-05", 5, 1, 2⟩, ⟨"2024-01-01", 1, 1, 1⟩]

/-- A stats cache whose daily-activity list is `actsUnsorted`. -/
def statsUnsorted : ClaudeStats :=
  { dailyActivity := some actsUnsorted }

/-- A stats cache whose final daily-model-token entry is dated a day
*earlier* than its final daily-activity entry. -/
def statsMismatch : ClaudeStats :=
  { dailyActivity := some [⟨"2024-01-05", 3, 1, 2⟩]
    dailyModelTokens := some [⟨"2024-01-04", some [("claude-opus", 100)]⟩] }

/-- A stats cache with activity for 2024-01-05 only (and no token data). -/
def statsSingleDay : ClaudeStats :=
  { dailyActivity := some [⟨"2024-01-05", 5, 1, 2⟩] }

/-! ### Helper lemmas -/

theorem sortByKeyDesc_sorted (key : α → Int) (l : List α) :
    List.Sorted (fun a b => key b ≤ key a) (sortByKeyDesc key l) := by
  haveI : IsTotal α (fun a b => key b ≤ key a) := ⟨fun a b => le_total (key b) (key a)⟩
  haveI : IsTrans α (fun a b => key b ≤ key a) :=
    ⟨fun _ _ _ h1 h2 => le_trans h2 h1⟩
  exact List.sorted_insertionSort _ l

theorem sortByKeyDesc_perm (key : α → Int) (l : List α) :
    List.Perm (sortByKeyDesc key l) l :=
  List.perm_insertionSort _ l

theorem processDirEntry_eq_some {e : DirEntry} {p : ProjectInfo}
    (h : processDirEntry e = some p) :
    ∃ index, e.index = some index ∧ p = mkProject e index := by
  unfold processDirEntry at h
  split at h
  · cases hidx : e.index with
    | none => rw [hidx] at h; simp at h
    | some index =>
      rw [hidx] at h
      simp only [Option.map_some'] at h
      exact ⟨index, rfl, (Option.some.inj h).symm⟩
  · simp at h

theorem foldl_add_map (f : α → Nat) (l : List α) (n : Nat) :
    l.foldl (fun sum a => sum + f a) n = n + (l.map f).sum := by
  induction l generalizing n with
  | nil => simp
  | cons a l ih => simp only [List.foldl_cons, List.map_cons, List.sum_cons, ih]; omega

theorem mkProject_fields (e : DirEntry) (index : SessionsIndex) :
    (mkProject e index).sessions =
        sortByKeyDesc (fun s => s.modified) (indexSessions index) ∧
    (mkProject e index).totalMessages =
        (indexSessions index).foldl (fun sum s => sum + s.messageCount) 0 :=
  ⟨rfl, rfl⟩

theorem parseSessionFile_eq_none {f : Codex.SessionFile}
    (h : Codex.envelopeOk f = false) (filePath : String) :
    Codex.parseSessionFile filePath f = none := by
  unfold Codex.envelopeOk at h
  cases hev : f.firstEvent with
  | none => simp [Codex.parseSessionFile, hev]
  | some ev =>
    rw [hev] at h
    by_cases ht : ev.type = "session_meta"
    · cases hp : ev.payload with
      | none => simp [Codex.parseSessionFile, hev, hp]
      | some meta =>
        exfalso
        simp [ht, hp] at h
    · simp [Codex.parseSessionFile, hev, ht]

/-! ### The claims -/

/-- C7: when the expected root directory is absent, `getProjects` (Claude)
and `getSessions` (Codex) return an empty sequence; both embedded functions
are total, so no exception is possible. -/
theorem missing_root_returns_empty :
    getProjects none = [] ∧
    ∀ sessionsPath, Codex.getSessions none sessionsPath = [] :=
  ⟨rfl, fun _ => rfl⟩

/-- C4 counterexample: at exactly 59 seconds in the past the formatter *does*
return "just now" (`Math.floor(59000 / 60000) = 0 < 1`), refuting the claim
that "just now" is not returned there. -/
theorem formatRelativeTime_59s_cex :
    formatRelativeTime 59000 "12/31/2023" = "just now" := by decide

/-- C4 (amended): 59 seconds in the past yields "just now" (the boundary is
60 seconds: below it "just now", at it "1m ago"), and the thresholds use
floor (truncating) division of the elapsed milliseconds: every instant with
`0 ≤ ms < 60000` yields "just now", and every instant with
`60000 ≤ ms < 3600000` yields the floor of the minute count. -/
theorem formatRelativeTime_boundaries :
    (∀ localeDate : String,
        formatRelativeTime 59000 localeDate = "just now" ∧
        formatRelativeTime 59999 localeDate = "just now" ∧
        formatRelativeTime 60000 localeDate = "1m ago" ∧
        formatRelativeTime 119999 localeDate = "1m ago" ∧
        formatRelativeTime 120000 localeDate = "2m ago") ∧
    (∀ (localeDate : String) (ms : Int), 0 ≤ ms → ms < 60000 →
        formatRelativeTime ms localeDate = "just now") ∧
    (∀ (localeDate : String) (ms : Int), 60000 ≤ ms → ms < 3600000 →
        formatRelativeTime ms localeDate =
          toString (Int.fdiv ms 60000) ++ "m ago") := by
  refine ⟨fun _ => ⟨rfl, rfl, rfl, rfl, rfl⟩, ?_, ?_⟩
  · intro _ ms h0 hlt
    have hdiv : Int.fdiv ms 60000 = 0 := by
      rw [Int.fdiv_eq_ediv _ (by norm_num)]
      exact Int.ediv_eq_zero_of_lt h0 hlt
    unfold formatRelativeTime
    rw [hdiv]
    norm_num
  · intro _ ms hge hlt
    have hdiv : Int.fdiv ms 60000 = ms / 60000 :=
      Int.fdiv_eq_ediv _ (by norm_num)
    have h1 : (1 : Int) ≤ ms / 60000 := by
      rw [Int.le_ediv_iff_mul_le (by norm_num)]
      omega
    have h60 : ms / 60000 < 60 := by
      rw [Int.ediv_lt_iff_lt_mul (by norm_num)]
      omega
    unfold formatRelativeTime
    rw [hdiv, if_neg (by omega), if_pos h60]

/-- C4 witness: the general "just now" range applied at 30 seconds. -/
theorem formatRelativeTime_boundaries_witness :
    formatRelativeTime 30000 "12/31/2023" = "just now" :=
  formatRelativeTime_boundaries.2.1 "12/31/2023" 30000 (by decide) (by decide)

/-- C8 counterexample: a working-directory path containing a literal hyphen
does not round-trip: escaping `/tmp/my-proj` and unescaping yields
`/tmp/my/proj`. -/
theorem unescape_escape_roundtrip_cex :
    unescapePath (escapePath "/tmp/my-proj") = "/tmp/my/proj" ∧
    unescapePath (escapePath "/tmp/my-proj") ≠ "/tmp/my-proj" := by
  exact ⟨by decide, by decide⟩

/-- C8 (amended): unescaping after escaping restores every escaped separator
to its literal form, so the round-trip is the identity for exactly those
paths that contain no literal hyphen; a literal hyphen in the original path
is also turned into a separator by the unescaping step. -/
theorem unescape_escape_roundtrip (p : String)
    (h : ∀ c ∈ p.data, c ≠ '-') :
    unescapePath (escapePath p) = p := by
  obtain ⟨data⟩ := p
  show String.mk (List.map _ (List.map _ data)) = String.mk data
  rw [List.map_map]
  congr 1
  have hstep : ∀ c ∈ data,
      ((fun c => if c = '-' then '/' else c) ∘
        fun c => if c = '/' then '-' else c) c = c := by
    intro c hc
    by_cases h1 : c = '/'
    · simp [h1]
    · have h2 : c ≠ '-' := h c hc
      simp [h1, h2]
  calc List.map _ data = List.map id data := List.map_congr_left hstep
    _ = data := List.map_id data

/-- C8 witness: a hyphen-free path round-trips. -/
theorem unescape_escape_roundtrip_witness :
    unescapePath (escapePath "/home/user/project") = "/home/user/project" :=
  unescape_escape_roundtrip "/home/user/project" (by decide)

/-- C1: `getModelUsage` at a stats input in which two raw identifiers both
canonicalize to "Opus".  The code's `result[shortName] = {...}` applies
last-write-wins, so the returned entry carries the counts of the final
colliding identifier (200/20), not the sum (300/30) that the specification
requires (spec §4.4: collision-merge, not overwrite). -/
theorem getModelUsage_collision_last_write_wins :
    getModelUsage (some statsColliding) = [("Opus", ⟨200, 20⟩)] ∧
    summedUsageFor collidingUsage "Opus" = ⟨300, 30⟩ ∧
    lastUsageFor collidingUsage "Opus" = some ⟨200, 20⟩ ∧
    (⟨200, 20⟩ : ModelUsageEntry) ≠ ⟨300, 30⟩ := by
  exact ⟨by decide, by decide, by decide, by decide⟩

/-- C2 counterexample: on a daily-activity list that is not sorted ascending
by date, the fallback takes the *positionally* last entry (2024-01-01),
not the chronologically last one (2024-01-05). -/
theorem getTodayStats_chronoLast_cex :
    chronoLast actsUnsorted = some ⟨"2024-01-05", 5, 1, 2⟩ ∧
    getTodayStats (some statsUnsorted) "2024-02-01" =
      ⟨1, 1, 1, 0, "2024-01-01"⟩ ∧
    (⟨1, 1, 1, 0, "2024-01-01"⟩ : TodaySnapshot) ≠
      ⟨5, 1, 2, 0, "2024-01-05"⟩ := by
  exact ⟨by decide, by decide, by decide⟩

/-- C2 (amended): when the daily-activity list is non-empty and contains no
entry for today, `getTodayStats` returns the counts of the *final element*
of that list — which is the chronologically last entry only when the list is
sorted ascending by date — and reports that entry's own date as the label
(falling back to today's date when that date string is empty); when the
stats structure is absent, or its daily-activity list is absent or empty,
it returns an all-zero snapshot labeled with today's date. -/
theorem getTodayStats_fallback_last_entry :
    (∀ (stats : ClaudeStats) (today : String) (da : List DailyActivity)
        (a : DailyActivity),
        stats.dailyActivity = some da →
        (∀ d ∈ da, d.date ≠ today) →
        da.getLast? = some a →
        a.date ≠ "" →
        getTodayStats (some stats) today =
          ⟨a.messageCount, a.sessionCount, a.toolCallCount,
           sumTokensOpt (stats.dailyModelTokens.bind List.getLast?), a.date⟩) ∧
    (∀ today, getTodayStats none today = ⟨0, 0, 0, 0, today⟩) ∧
    (∀ (stats : ClaudeStats) (today : String), stats.dailyActivity = none →
        getTodayStats (some stats) today = ⟨0, 0, 0, 0, today⟩) ∧
    (∀ (stats : ClaudeStats) (today : String), stats.dailyActivity = some [] →
        getTodayStats (some stats) today = ⟨0, 0, 0, 0, today⟩) := by
  refine ⟨?_, fun _ => rfl, ?_, ?_⟩
  · intro stats today da a hda hno hlast hdate
    have hne : da ≠ [] := by
      rintro rfl
      simp at hlast
    have hemp : ¬(da.isEmpty = true) := by
      cases da
      · exact absurd rfl hne
      · simp
    have hfind : da.find? (fun d => d.date = today) = none :=
      List.find?_eq_none.mpr (fun x hx => by simpa using hno x hx)
    simp only [getTodayStats]
    rw [hda]
    simp only [if_neg hemp, hfind, hlast]
    rw [if_neg hdate]
  · intro stats today hda
    simp only [getTodayStats]
    rw [hda]
  · intro stats today hda
    simp only [getTodayStats]
    rw [hda]
    rfl

/-- C2 witness: daily entries exist for 2024-01-05 only and today is
2024-02-01; the snapshot carries that day's counts and its date. -/
theorem getTodayStats_fallback_last_entry_witness :
    getTodayStats (some statsSingleDay) "2024-02-01" =
      ⟨5, 1, 2, 0, "2024-01-05"⟩ := by
  have h := getTodayStats_fallback_last_entry.1 statsSingleDay "2024-02-01"
    [⟨"2024-01-05", 5, 1, 2⟩] ⟨"2024-01-05", 5, 1, 2⟩
    rfl (by decide) rfl (by decide)
  simpa using h

/-- C3 counterexample: in the fallback case the resolved snapshot date is
2024-01-05, the daily-model-token data for that date sums to 0 (no entry for
that date exists), yet the returned `totalTokens` is 100 — the counts of the
positionally last token entry, which is dated 2024-01-04. -/
theorem getTodayStats_totalTokens_cex :
    (getTodayStats (some statsMismatch) "2024-02-01").date = "2024-01-05" ∧
    tokensForDate statsMismatch "2024-01-05" = 0 ∧
    (getTodayStats (some statsMismatch) "2024-02-01").totalTokens = 100 ∧
    (getTodayStats (some statsMismatch) "2024-02-01").totalTokens ≠
      tokensForDate statsMismatch
        ((getTodayStats (some statsMismatch) "2024-02-01").date) := by
  exact ⟨by decide, by decide, by decide, by decide⟩

/-- C3 (amended): `totalTokens` is the sum of whatever per-model counts are
present in the *selected* daily-model-token entry — the first entry dated
today when today's activity exists, otherwise the positionally last entry of
the list regardless of its date — with an absent entry or an absent
per-model record contributing zero. -/
theorem getTodayStats_totalTokens_selected :
    (∀ (stats : ClaudeStats) (today : String) (da : List DailyActivity),
        stats.dailyActivity = some da → da ≠ [] →
        (getTodayStats (some stats) today).totalTokens =
          sumTokensOpt (selectedTokenEntry stats today)) ∧
    (∀ today, (getTodayStats none today).totalTokens = 0) ∧
    (∀ (stats : ClaudeStats) (today : String),
        stats.dailyActivity = none ∨ stats.dailyActivity = some [] →
        (getTodayStats (some stats) today).totalTokens = 0) := by
  refine ⟨?_, fun _ => rfl, ?_⟩
  · intro stats today da hda hne
    have hemp : ¬(da.isEmpty = true) := by
      cases da
      · exact absurd rfl hne
      · simp
    simp only [getTodayStats, selectedTokenEntry]
    rw [hda]
    cases hfind : da.find? (fun d => d.date = today) with
    | some a => simp [if_neg hemp, hfind, hne]
    | none =>
      cases hlast : da.getLast? with
      | some a => simp [if_neg hemp, hfind, hlast, hne]
      | none => exact absurd (List.getLast?_eq_none_iff.mp hlast) hne
  · intro stats today hda
    cases hda with
    | inl h => simp only [getTodayStats]; rw [h]
    | inr h => simp only [getTodayStats]; rw [h]; rfl

/-- C3 witness: the token-total refinement applied to the mismatched stats
cache at a date not present in the activity list. -/
theorem getTodayStats_totalTokens_selected_witness :
    (getTodayStats (some statsMismatch) "2024-02-01").totalTokens =
      sumTokensOpt (selectedTokenEntry statsMismatch "2024-02-01") :=
  getTodayStats_totalTokens_selected.1 statsMismatch "2024-02-01"
    [⟨"2024-01-05", 3, 1, 2⟩] rfl (by decide)

/-- C5: every sequence produced by the scanners and the project aggregator
is sorted non-increasing by its timestamp key — the session list inside each
returned project by modification time, the project list by `lastModified`,
and the Codex session list by session timestamp. -/
theorem scanner_outputs_sorted_descending :
    (∀ (projectsDir : Option (List DirEntry)) (p : ProjectInfo),
        p ∈ getProjects projectsDir →
        List.Sorted (fun a b => b.modified ≤ a.modified) p.sessions) ∧
    (∀ projectsDir : Option (List DirEntry),
        List.Sorted (fun a b => b.lastModified ≤ a.lastModified)
          (getProjects projectsDir)) ∧
    (∀ (sessionsDir : Option (List Codex.YearDir)) (sessionsPath : String),
        List.Sorted (fun a b => b.timestamp ≤ a.timestamp)
          (Codex.getSessions sessionsDir sessionsPath)) := by
  refine ⟨?_, ?_, ?_⟩
  · rintro (_ | entries) p hp
    · simp [getProjects] at hp
    · have hp' : p ∈ entries.filterMap processDirEntry :=
        (sortByKeyDesc_perm _ _).mem_iff.mp hp
      obtain ⟨e, _, hpe⟩ := List.mem_filterMap.mp hp'
      obtain ⟨index, _, rfl⟩ := processDirEntry_eq_some hpe
      rw [(mkProject_fields e index).1]
      exact sortByKeyDesc_sorted _ _
  · rintro (_ | entries)
    · simp [getProjects]
    · exact sortByKeyDesc_sorted _ _
  · rintro (_ | years) sessionsPath
    · simp [Codex.getSessions]
    · exact sortByKeyDesc_sorted _ _

/-- C5 witness: a project directory with two sessions (modified at 100 and
200) yields the single project whose session list is sorted descending. -/
theorem scanner_outputs_sorted_descending_witness :
    List.Sorted (fun a b => b.modified ≤ a.modified)
      (ProjectInfo.sessions
        ⟨"proj", "/tmp/proj", "-tmp-proj",
         [⟨"s2", "/tmp/proj/s2.jsonl", 200, 4, 60, 200, none, "/tmp/proj"⟩,
          ⟨"s1", "/tmp/proj/s1.jsonl", 100, 3, 50, 100, none, "/tmp/proj"⟩],
         7, 200⟩) :=
  scanner_outputs_sorted_descending.1
    (some [⟨"-tmp-proj", true,
      some ⟨1,
        some [⟨"s1", "/tmp/proj/s1.jsonl", 100, 3, 50, 100, none, "/tmp/proj"⟩,
              ⟨"s2", "/tmp/proj/s2.jsonl", 200, 4, 60, 200, none, "/tmp/proj"⟩],
        none, none⟩⟩])
    _ (by decide)

/-- C6: for every parsed sessions index, the `totalMessages` of each project
returned by `getProjects` equals the sum of the message counts of the
sessions it contains. -/
theorem getProjects_totalMessages_sum :
    ∀ (projectsDir : Option (List DirEntry)) (p : ProjectInfo),
      p ∈ getProjects projectsDir →
      p.totalMessages = (p.sessions.map (fun s => s.messageCount)).sum := by
  rintro (_ | entries) p hp
  · simp [getProjects] at hp
  · have hp' : p ∈ entries.filterMap processDirEntry :=
      (sortByKeyDesc_perm _ _).mem_iff.mp hp
    obtain ⟨e, _, hpe⟩ := List.mem_filterMap.mp hp'
    obtain ⟨index, _, rfl⟩ := processDirEntry_eq_some hpe
    rw [(mkProject_fields e index).1, (mkProject_fields e index).2, foldl_add_map]
    have hperm :
        List.Perm
          ((sortByKeyDesc (fun s => s.modified) (indexSessions index)).map
            (fun s => s.messageCount))
          ((indexSessions index).map (fun s => s.messageCount)) :=
      (sortByKeyDesc_perm _ _).map _
    rw [hperm.sum_eq]
    simp

/-- C6 witness: the two-session project has `totalMessages = 3 + 4`. -/
theorem getProjects_totalMessages_sum_witness :
    ProjectInfo.totalMessages
        ⟨"proj", "/tmp/proj", "-tmp-proj",
         [⟨"s2", "/tmp/proj/s2.jsonl", 200, 4, 60, 200, none, "/tmp/proj"⟩,
          ⟨"s1", "/tmp/proj/s1.jsonl", 100, 3, 50, 100, none, "/tmp/proj"⟩],
         7, 200⟩ =
      ((ProjectInfo.sessions
        ⟨"proj", "/tmp/proj", "-tmp-proj",
         [⟨"s2", "/tmp/proj/s2.jsonl", 200, 4, 60, 200, none, "/tmp/proj"⟩,
          ⟨"s1", "/tmp/proj/s1.jsonl", 100, 3, 50, 100, none, "/tmp/proj"⟩],
         7, 200⟩).map (fun s => s.messageCount)).sum :=
  getProjects_totalMessages_sum
    (some [⟨"-tmp-proj", true,
      some ⟨1,
        some [⟨"s1", "/tmp/proj/s1.jsonl", 100, 3, 50, 100, none, "/tmp/proj"⟩,
              ⟨"s2", "/tmp/proj/s2.jsonl", 200, 4, 60, 200, none, "/tmp/proj"⟩],
        none, none⟩⟩])
    _ (by decide)

/-- C9: a session-transcript file whose first line does not carry the
recognized envelope (`type = "session_meta"` with a payload) — including an
unparseable first line — produces no session record at all, and removing it
from its day directory leaves the collected session list unchanged (the scan
continues over the remaining files). -/
theorem parseSessionFile_bad_envelope_excluded :
    (∀ (filePath : String) (f : Codex.SessionFile),
        Codex.envelopeOk f = false →
        Codex.parseSessionFile filePath f = none) ∧
    (∀ (dayPath : String) (day : Codex.DayDir)
        (pre post : List Codex.SessionFile) (f : Codex.SessionFile),
        day.files = pre ++ f :: post →
        Codex.envelopeOk f = false →
        Codex.collectDay dayPath day =
          Codex.collectDay dayPath { day with files := pre ++ post }) := by
  constructor
  · intro filePath f h
    exact parseSessionFile_eq_none h filePath
  · intro dayPath day pre post f hfiles h
    unfold Codex.collectDay
    cases hdir : day.isDirectory with
    | false => simp
    | true =>
      simp only [if_pos rfl, hfiles]
      rw [List.filterMap_append, List.filterMap_append, List.filterMap_cons]
      have hnone :
          (if jsEndsWith f.name ".jsonl" then
            Codex.parseSessionFile (dayPath ++ "/" ++ f.name) f
          else none) = none := by
        by_cases hj : jsEndsWith f.name ".jsonl" = true
        · rw [if_pos hj]
          exact parseSessionFile_eq_none h _
        · rw [if_neg hj]
      rw [hnone]

/-- C9 witness: a first line of type `"not_session_meta"` yields no session
and its file's removal leaves the day's session list unchanged. -/
theorem parseSessionFile_bad_envelope_excluded_witness :
    Codex.parseSessionFile "d/bad.jsonl"
        ⟨"bad.jsonl", some ⟨"not_session_meta", none⟩, 3⟩ = none ∧
    Codex.collectDay "d"
        ⟨"05", true,
         [⟨"good.jsonl",
           some ⟨"session_meta", some ⟨"id1", 100, "/tmp/p", none, "1.0", none⟩⟩, 5⟩,
          ⟨"bad.jsonl", some ⟨"not_session_meta", none⟩, 3⟩]⟩ =
      Codex.collectDay "d"
        ⟨"05", true,
         [⟨"good.jsonl",
           some ⟨"session_meta", some ⟨"id1", 100, "/tmp/p", none, "1.0", none⟩⟩, 5⟩]⟩ :=
  ⟨parseSessionFile_bad_envelope_excluded.1 "d/bad.jsonl" _ (by decide),
   parseSessionFile_bad_envelope_excluded.2 "d"
     ⟨"05", true,
      [⟨"good.jsonl",
        some ⟨"session_meta", some ⟨"id1", 100, "/tmp/p", none, "1.0", none⟩⟩, 5⟩,
       ⟨"bad.jsonl", some ⟨"not_session_meta", none⟩, 3⟩]⟩
     [⟨"good.jsonl",
       some ⟨"session_meta", some ⟨"id1", 100, "/tmp/p", none, "1.0", none⟩⟩, 5⟩]
     [] _ rfl (by decide)⟩

/-- C10: for a positive `limit`, `getRecentHistory` returns at most `limit`
entries — the parseable entries of the last `limit` lines, newest (i.e.
latest line) first; for `limit = 0` the `slice(-0)` quirk selects the whole
file, so *every* parseable entry is returned (newest first), not none. -/
theorem getRecentHistory_tail_spec {α : Type} (parse : String → Option α)
    (content : String) (limit : Nat) :
    (0 < limit →
      (getRecentHistory parse (some content) limit).length ≤ limit ∧
      getRecentHistory parse (some content) limit =
        ((takeLast limit (historyLines content)).filterMap parse).reverse) ∧
    getRecentHistory parse (some content) 0 =
      ((historyLines content).filterMap parse).reverse := by
  constructor
  · intro hpos
    have hz : limit ≠ 0 := Nat.pos_iff_ne_zero.mp hpos
    have hslice : jsSliceNeg (historyLines content) limit =
        takeLast limit (historyLines content) := by
      unfold jsSliceNeg takeLast
      rw [if_neg hz, List.reverse_take]
      simp
    constructor
    · simp only [getRecentHistory]
      rw [List.length_reverse]
      calc (List.filterMap parse (jsSliceNeg (historyLines content) limit)).length
          ≤ (jsSliceNeg (historyLines content) limit).length :=
            List.length_filterMap_le _ _
        _ ≤ limit := by
            unfold jsSliceNeg
            rw [if_neg hz, List.length_drop]
            omega
    · simp only [getRecentHistory]
      rw [hslice]
  · simp only [getRecentHistory]
    unfold jsSliceNeg
    simp

/-- C10 witness: four lines, one unparseable, `limit = 2`. -/
theorem getRecentHistory_tail_spec_witness :
    (getRecentHistory (fun s => if s = "bad" then none else some s)
        (some "a\nbad\nb\nc") 2).length ≤ 2 ∧
    getRecentHistory (fun s => if s = "bad" then none else some s)
        (some "a\nbad\nb\nc") 2 =
      ((takeLast 2 (historyLines "a\nbad\nb\nc")).filterMap
        (fun s => if s = "bad" then none else some s)).reverse :=
  (getRecentHistory_tail_spec (fun s => if s = "bad" then none else some s)
    "a\nbad\nb\nc" 2).1 (by decide)

end CAM



